import Mathlib

/-!
Verification of the raster-to-TSPL print filter.

This file gives a shallow embedding of the filter's core logic
(`src/main.rs`, with `src/api.rs` holding a duplicated draft of the same
helpers) and proves or refutes the frozen specification claims about it.

Modelling conventions:
* `u8`/`u32` values are `Nat` with an explicit `% 2 ^ 32` where a wrapping
  overflow could occur; `i32` values are `Int`.
* stdout is a byte stream, modelled as `List Nat`; an ASCII command string
  `s` written by the `out!` macro contributes `strBytes s ++ [13, 10]`
  (the macro prints the formatted text and then a carriage return and a
  line feed).
* the marked-choice state of the PPD file is modelled as a function
  `String → Option String` giving, per keyword, the marked choice's
  literal value (`none` when `ppdFindMarkedChoice` finds nothing).
* the SIGTERM cancellation flag is a set-once boolean; its poll sites are
  numbered consecutively, and `cancelAt ≤ c` says the flag was already set
  when poll number `c` happened.
-/

/-- ASCII bytes of a string, as written to stdout by `print!`. -/
def strBytes (s : String) : List Nat := s.toList.map Char.toNat

/-- Bytes produced by the `out!` macro: the formatted text followed by the
carriage-return line-feed terminator. -/
def outCmd (s : String) : List Nat := strBytes s ++ [13, 10]

/-- `const WHITE_THRESHOLD: u8 = 128;` from `main.rs`. -/
def WHITE_THRESHOLD : Nat := 128

/-- The u32 modulus, for wrapping arithmetic. -/
def U32 : Nat := 4294967296

/-- Rust's `u32::div_ceil`: quotient plus one when the remainder is
nonzero.  (Rust panics when the divisor is zero; theorems about this
definition carry a positivity hypothesis for the divisor.) -/
def rust_div_ceil (a b : Nat) : Nat := a / b + (if a % b = 0 then 0 else 1)

/-- Rust's `i32::from_str`: an optional sign, then one or more ASCII
digits, and the value must fit in an `i32`; everything else fails. -/
def parse_i32 (s : String) : Option Int :=
  let chars := s.toList
  let sign : Int := match chars with
    | '-' :: _ => -1
    | _ => 1
  let digits : List Char := match chars with
    | '-' :: rest => rest
    | '+' :: rest => rest
    | other => other
  if digits = [] then none
  else if digits.all Char.isDigit then
    let n : Nat := digits.foldl (fun acc c => 10 * acc + (c.toNat - 48)) 0
    let v : Int := sign * n
    if -2147483648 ≤ v ∧ v ≤ 2147483647 then some v else none
  else none

/-- `PpdChoice::parse_if_not` from `main.rs` (the identical copy in
`api.rs` documents itself as parsing the chosen value).  `choice` is the
marked choice's literal value, `dflt` the default marker string.  The
source compares the choice against `dflt` and then parses `dflt` itself:
`Ok(Some(default.to_str()?.parse()?))`. -/
def parse_if_not {α : Type} (parse : String → Option α) (choice dflt : String) :
    Except String (Option α) :=
  if choice = dflt then Except.ok none
  else
    match parse dflt with
    | some v => Except.ok (some v)
    | none => Except.error "invalid digit found in string"

/-- `ppd_find_marked_choice_and_parse_if_not::<i32>` from `main.rs`: look
up the marked choice for `keyword`; when none is marked return `Ok(None)`,
otherwise defer to `parse_if_not`. -/
def find_and_parse_if_not (cfg : String → Option String) (keyword dflt : String) :
    Except String (Option Int) :=
  match cfg keyword with
  | none => Except.ok none
  | some choice => parse_if_not parse_i32 choice dflt

/-! ## Halftone conversion (`output_line`) -/

/-- One step of the thresholding loop in `output_line`: for the pair
`(i, byte)` produced by `enumerate`, set bit `7 - i` of the accumulator
when `byte >= WHITE_THRESHOLD`. -/
def threshold_step (out : Nat) (ib : Nat × Nat) : Nat :=
  if WHITE_THRESHOLD ≤ ib.2 then out ||| (1 <<< (7 - ib.1)) else out

/-- The accumulated bits for one chunk before the final inversion:
`for (i, &byte) in chunk.iter().enumerate() { if byte >= WHITE_THRESHOLD { out |= 1 << (7 - i); } }`. -/
def preByte (chunk : List Nat) : Nat :=
  chunk.enum.foldl threshold_step 0

/-- The byte emitted for one chunk: the accumulated bits inverted as a
`u8` (`out = !out`). -/
def chunkByte (chunk : List Nat) : Nat := 255 ^^^ preByte chunk

/-- Structural workhorse for `chunks8`.  The first argument is fuel that
makes the recursion structural (so that the definition computes inside the
kernel); it is called with at least `l.length`, which the recursion never
exhausts, so the `0, a :: rest` branch is unreachable. -/
def chunks8_fuel : Nat → List Nat → List (List Nat)
  | _, [] => []
  | 0, a :: rest => [a :: rest]
  | fuel + 1, a :: rest => (a :: rest.take 7) :: chunks8_fuel fuel (rest.drop 7)

/-- Rust's `buffer.chunks(8)`: consecutive groups of eight samples, the
final group possibly shorter. -/
def chunks8 (l : List Nat) : List (List Nat) := chunks8_fuel l.length l

/-- `output_line` for the BEEPRT model: the bytes written for one row of
gray samples. -/
def output_line (buffer : List Nat) : List Nat :=
  (chunks8 buffer).map chunkByte

/-! ## Page setup (`start_page`) -/

/-- The fields of CUPS's `cups_page_header2_t` that the filter reads. -/
structure cups_page_header2_t where
  HWResolution0 : Nat
  HWResolution1 : Nat
  cupsWidth : Nat
  cupsHeight : Nat
  cupsBytesPerLine : Nat
deriving DecidableEq

/-- The `MediaTracking` enumeration from `main.rs`. -/
inductive MediaTracking
  | Gap
  | BLine
  | Continuous
deriving DecidableEq

/-- `let dots_per_mm_x = (10 * header.HWResolution[0]).div_ceil(254);`
with u32 wrapping on the multiplication. -/
def dots_per_mm_x (h : cups_page_header2_t) : Nat :=
  rust_div_ceil ((10 * h.HWResolution0) % U32) 254

/-- `let dots_per_mm_y = (10 * header.HWResolution[1]).div_ceil(254);` -/
def dots_per_mm_y (h : cups_page_header2_t) : Nat :=
  rust_div_ceil ((10 * h.HWResolution1) % U32) 254

/-- `let width_mm = header.cupsWidth.div_ceil(dots_per_mm_x);` -/
def width_mm (h : cups_page_header2_t) : Nat :=
  rust_div_ceil h.cupsWidth (dots_per_mm_x h)

/-- `let height_mm = header.cupsHeight.div_ceil(dots_per_mm_y);` -/
def height_mm (h : cups_page_header2_t) : Nat :=
  rust_div_ceil h.cupsHeight (dots_per_mm_y h)

/-- The text of the first command of page setup:
`out!("SIZE {width_mm} mm,{height_mm} mm")`. -/
def size_cmd (h : cups_page_header2_t) : String :=
  "SIZE " ++ toString (width_mm h) ++ " mm," ++ toString (height_mm h) ++ " mm"

/-- The text of the bitmap-frame-open command, emitted with `print!` and
hence with no line terminator of its own:
`print!("BITMAP 0,0,{},{},1,", (header.cupsWidth + 7) >> 3, header.cupsHeight)`,
with u32 wrapping on the addition. -/
def bitmap_cmd (h : cups_page_header2_t) : String :=
  "BITMAP 0,0," ++ toString (((h.cupsWidth + 7) % U32) >>> 3) ++ ","
    ++ toString h.cupsHeight ++ ",1,"

/-- The per-page configuration values resolved by `start_page` before the
second and later commands are emitted. -/
structure PageOpts where
  reference_x : Int
  reference_y : Int
  rotate : Int
  media_tracking : MediaTracking
  gap_mark_height : Int
  gap_mark_offset : Int
  feed_offset : Int
  darkness : Int
  speed : Int
  autodotted : Int
deriving DecidableEq

/-- The option-resolution sequence of `start_page`, in source order; each
lookup uses `ppd_find_marked_choice_and_parse_if_not::<i32>` with the
default marker `"Default"` and a numeric fallback (`unwrap_or`), except
`zeMediaTracking` whose marked value is compared against the literals
`"BLine"` and `"Continuous"`.  The first parse failure aborts the
sequence, exactly as the `?` operator does. -/
def resolve_page_opts (cfg : String → Option String) : Except String PageOpts := do
  let reference_x := (← find_and_parse_if_not cfg "AdjustHoriaontal" "Default").getD 0
  let reference_y := (← find_and_parse_if_not cfg "AdjustVertical" "Default").getD 0
  let rotate := (← find_and_parse_if_not cfg "Rotate" "Default").getD 0
  let media_tracking :=
    match cfg "zeMediaTracking" with
    | some v =>
      if v = "BLine" then MediaTracking.BLine
      else if v = "Continuous" then MediaTracking.Continuous
      else MediaTracking.Gap
    | none => MediaTracking.Gap
  let gap_mark_height := (← find_and_parse_if_not cfg "GapOrMarkHeight" "Default").getD 3
  let gap_mark_offset := (← find_and_parse_if_not cfg "GapOrMarkOffset" "Default").getD 0
  let feed_offset := (← find_and_parse_if_not cfg "FeedOffset" "Default").getD 0
  let darkness := (← find_and_parse_if_not cfg "Darkness" "Default").getD 8
  let speed := (← find_and_parse_if_not cfg "zePrintRate" "Default").getD 4
  let autodotted := (← find_and_parse_if_not cfg "Autodotted" "Default").getD 0
  return ⟨reference_x, reference_y, rotate, media_tracking, gap_mark_height,
    gap_mark_offset, feed_offset, darkness, speed, autodotted⟩

/-- The commands `start_page` emits after the options are resolved, up to
and including the unterminated `BITMAP` command. -/
def post_opts_bytes (h : cups_page_header2_t) (o : PageOpts) : List Nat :=
  outCmd ("REFERENCE " ++ toString ((dots_per_mm_x h : Int) * o.reference_x) ++ ","
      ++ toString ((dots_per_mm_y h : Int) * o.reference_y))
  ++ outCmd ("DIRECTION " ++ toString o.rotate ++ ",0")
  ++ (match o.media_tracking with
      | MediaTracking.Gap =>
        outCmd ("GAP " ++ toString o.gap_mark_height ++ " mm,"
          ++ toString o.gap_mark_offset ++ " mm")
      | MediaTracking.BLine =>
        outCmd ("BLINE " ++ toString o.gap_mark_height ++ " mm,"
          ++ toString o.gap_mark_offset ++ " mm")
      | MediaTracking.Continuous => outCmd "GAP 0 mm,0 mm")
  ++ outCmd ("OFFSET " ++ toString o.feed_offset ++ " mm")
  ++ outCmd ("DENSITY " ++ toString o.darkness)
  ++ outCmd ("SPEED " ++ toString o.speed)
  ++ outCmd ("SETC AUTODOTTED " ++ (if o.autodotted ≠ 0 then "ON" else "OFF"))
  ++ outCmd "SETC PAUSEKEY ON"
  ++ outCmd "SETC WATERMARK OFF"
  ++ outCmd "CLS"
  ++ strBytes (bitmap_cmd h)

/-- `start_page` for the BEEPRT model: the bytes it writes to stdout and
its result.  The `SIZE` command is written before any option is resolved;
a parse failure therefore leaves exactly that one command emitted and
propagates the error. -/
def start_page (h : cups_page_header2_t) (cfg : String → Option String) :
    List Nat × Except String Unit :=
  let sizeOut := outCmd (size_cmd h)
  match resolve_page_opts cfg with
  | Except.error e => (sizeOut, Except.error e)
  | Except.ok o => (sizeOut ++ post_opts_bytes h o, Except.ok ())

/-- `end_page` for the BEEPRT model: `out!("\nPRINT 1,1")`. -/
def end_page_bytes : List Nat := outCmd "\nPRINT 1,1"

/-! ## The job driver (`error_main`) -/

deriving instance DecidableEq for Except

/-- Result of the per-page row loop. -/
structure RowLoopOut where
  out : List Nat
  ctr : Nat
  cancelled : Bool
  rowsDone : Nat
deriving DecidableEq

/-- The row loop body of `error_main`, recursing on the number of rows the
`for y in 0..header.cupsHeight` loop still has to visit.  Each iteration
polls the cancellation flag once (poll number `c`); then
`cupsRasterReadPixels` either delivers the next row or returns less than 1
and the loop breaks. -/
def row_loop_go (cancelAt : Nat) : Nat → List (List Nat) → Nat → RowLoopOut
  | 0, _, c => ⟨[], c, false, 0⟩
  | rem + 1, rows, c =>
    if cancelAt ≤ c then ⟨[], c + 1, true, 0⟩
    else
      match rows with
      | [] => ⟨[], c + 1, false, 0⟩
      | row :: rest =>
        let r := row_loop_go cancelAt rem rest (c + 1)
        ⟨output_line row ++ r.out, r.ctr, r.cancelled, r.rowsDone + 1⟩

/-- The row loop of one page: `cupsHeight` iterations over the rows the
raster stream can still deliver. -/
def row_loop (cancelAt c : Nat) (h : cups_page_header2_t)
    (rows : List (List Nat)) : RowLoopOut :=
  row_loop_go cancelAt h.cupsHeight rows c

/-- Result of processing one page inside the loop of `error_main`. -/
structure PageOut where
  out : List Nat
  ctr : Nat
  status : Except String Unit
  rowCancelled : Bool
deriving DecidableEq

/-- One page of `error_main`: `start_page` (whose parse failure propagates
via `?`), then the row loop, then — unconditionally, even when the row
loop was abandoned — `end_page`. -/
def process_page (cancelAt c : Nat) (h : cups_page_header2_t)
    (rows : List (List Nat)) (cfg : String → Option String) : PageOut :=
  match start_page h cfg with
  | (sp, Except.error e) => ⟨sp, c, Except.error e, false⟩
  | (sp, Except.ok ()) =>
    let r := row_loop cancelAt c h rows
    ⟨sp ++ r.out ++ end_page_bytes, r.ctr, Except.ok (), r.cancelled⟩

/-- One page of input: its header and the rows `cupsRasterReadPixels` can
deliver before it reports failure. -/
structure PageData where
  header : cups_page_header2_t
  rows : List (List Nat)

/-- What the underlying raster stream runs into when the page list is
exhausted: a clean end of stream, or some other mid-stream read failure.
`cupsRasterReadHeader2` reports both identically, by returning 0. -/
inductive StreamEnd
  | eof
  | readError
deriving DecidableEq

/-- Result of a whole job. -/
structure JobOut where
  out : List Nat
  pages : Nat
  status : Except String Unit
deriving DecidableEq

/-- The page loop of `error_main`.  Reading a header past the last page
yields `r == 0` — for `StreamEnd.eof` and `StreamEnd.readError` alike —
and breaks the loop.  After a successful header read the cancellation
flag is polled (before `page += 1`); after a finished page it is polled
again. -/
def job_loop (cancelAt : Nat) (cfg : String → Option String) :
    List PageData → StreamEnd → Nat → Nat → JobOut
  | [], _, _, page => ⟨[], page, Except.ok ()⟩
  | p :: rest, ending, c, page =>
    if cancelAt ≤ c then ⟨[], page, Except.ok ()⟩
    else
      let pr := process_page cancelAt (c + 1) p.header p.rows cfg
      match pr.status with
      | Except.error e => ⟨pr.out, page + 1, Except.error e⟩
      | Except.ok () =>
        if cancelAt ≤ pr.ctr then ⟨pr.out, page + 1, Except.ok ()⟩
        else
          let jr := job_loop cancelAt cfg rest ending (pr.ctr + 1) (page + 1)
          ⟨pr.out ++ jr.out, jr.pages, jr.status⟩

/-- `error_main` from the page loop onward: run the loop, then report
`"no pages were found."` when no page was counted. -/
def error_main_run (cancelAt : Nat) (pages : List PageData) (ending : StreamEnd)
    (cfg : String → Option String) : JobOut :=
  let jr := job_loop cancelAt cfg pages ending 0 0
  match jr.status with
  | Except.error e => ⟨jr.out, jr.pages, Except.error e⟩
  | Except.ok () =>
    if jr.pages = 0 then ⟨jr.out, jr.pages, Except.error "no pages were found."⟩
    else ⟨jr.out, jr.pages, Except.ok ()⟩

/-- `main`: exit status 0 when `error_main` returns `Ok`, 1 otherwise. -/
def main_exit (r : Except String Unit) : Nat :=
  match r with
  | Except.ok _ => 0
  | Except.error _ => 1

/-! ## Shared fixtures and helper lemmas -/

/-- A configuration with no marked choices: every option falls back to its
numeric default and page setup succeeds. -/
def cfg_none : String → Option String := fun _ => none

/-- A configuration marking the literal value "15" for `Darkness`. -/
def cfg_bad : String → Option String :=
  fun k => if k = "Darkness" then some "15" else none

/-- A small page header: 203 dpi, 8 pixels wide, 2 rows. -/
def hdr_small : cups_page_header2_t := ⟨203, 203, 8, 2, 8⟩

/-- Two all-dark rows for `hdr_small`. -/
def rows_small : List (List Nat) :=
  [[0, 0, 0, 0, 0, 0, 0, 0], [0, 0, 0, 0, 0, 0, 0, 0]]

lemma strBytes_append (s t : String) : strBytes (s ++ t) = strBytes s ++ strBytes t := by
  simp [strBytes, String.toList]

/-- `rust_div_ceil a b` is the mathematical ceiling of `a / b`: it is the
unique `d` with `a ≤ b * d` and `b * d < a + b`. -/
lemma rust_div_ceil_spec (a b : Nat) (hb : 0 < b) :
    a ≤ b * rust_div_ceil a b ∧ b * rust_div_ceil a b < a + b := by
  have h1 := Nat.div_add_mod a b
  have h2 := Nat.mod_lt a hb
  unfold rust_div_ceil
  by_cases h : a % b = 0
  · rw [if_pos h, Nat.add_zero]
    omega
  · rw [if_neg h, Nat.mul_add, Nat.mul_one]
    omega

/-! ## Claim C1 -/

/-- C1: `parse_if_not` is claimed to parse the marked choice's literal
value when it differs from the default marker.  The code instead parses
the default marker itself, so the marked value `"5"` — which does parse as
an `i32`, as the second conjunct shows — is rejected with a parse error.
Only the `None`-on-default-marker half of the claim holds. -/
theorem c1_parse_if_not_bug :
    parse_if_not parse_i32 "5" "Default" = Except.error "invalid digit found in string"
    ∧ parse_i32 "5" = some 5
    ∧ parse_if_not parse_i32 "Default" "Default" = Except.ok none := by
  refine ⟨by decide, by decide, by decide⟩

/-! ## Claim C10 -/

/-- C10: `end_page` writes a line-feed byte, then the text `PRINT 1,1`,
then the carriage-return line-feed terminator. -/
theorem c10_end_page_framing :
    end_page_bytes = [10] ++ strBytes "PRINT 1,1" ++ [13, 10]
    ∧ strBytes "PRINT 1,1" = [80, 82, 73, 78, 84, 32, 49, 44, 49] := by
  refine ⟨by decide, by decide⟩

/-! ## Claim C5 -/

/-- C5: the per-axis dots-per-unit is the integer ceiling of
`10 * HWResolution / 254` (stated as the defining bounds of a ceiling),
the SIZE command reports the ceiling-divided pixel dimensions, it is the
first command `start_page` writes, and at 203 dpi with an 812 x 1218 page
the emitted bytes are exactly `SIZE 102 mm,153 mm` plus the terminator. -/
theorem c5_size_command (h : cups_page_header2_t)
    (hx : 10 * h.HWResolution0 < U32) (hy : 10 * h.HWResolution1 < U32)
    (hx0 : 0 < h.HWResolution0) (hy0 : 0 < h.HWResolution1) :
    (10 * h.HWResolution0 ≤ 254 * dots_per_mm_x h
      ∧ 254 * dots_per_mm_x h < 10 * h.HWResolution0 + 254)
    ∧ (10 * h.HWResolution1 ≤ 254 * dots_per_mm_y h
      ∧ 254 * dots_per_mm_y h < 10 * h.HWResolution1 + 254)
    ∧ (h.cupsWidth ≤ dots_per_mm_x h * width_mm h
      ∧ dots_per_mm_x h * width_mm h < h.cupsWidth + dots_per_mm_x h)
    ∧ (h.cupsHeight ≤ dots_per_mm_y h * height_mm h
      ∧ dots_per_mm_y h * height_mm h < h.cupsHeight + dots_per_mm_y h)
    ∧ (∀ cfg, ∃ rest, (start_page h cfg).1 = outCmd (size_cmd h) ++ rest)
    ∧ outCmd (size_cmd ⟨203, 203, 812, 1218, 812⟩)
        = strBytes "SIZE 102 mm,153 mm" ++ [13, 10] := by
  have hdx : dots_per_mm_x h = rust_div_ceil (10 * h.HWResolution0) 254 := by
    unfold dots_per_mm_x
    rw [Nat.mod_eq_of_lt hx]
  have hdy : dots_per_mm_y h = rust_div_ceil (10 * h.HWResolution1) 254 := by
    unfold dots_per_mm_y
    rw [Nat.mod_eq_of_lt hy]
  have sx := rust_div_ceil_spec (10 * h.HWResolution0) 254 (by omega)
  have sy := rust_div_ceil_spec (10 * h.HWResolution1) 254 (by omega)
  rw [← hdx] at sx
  rw [← hdy] at sy
  have hdx0 : 0 < dots_per_mm_x h := by
    rcases sx with ⟨sx1, _⟩
    by_contra hc
    have : dots_per_mm_x h = 0 := by omega
    rw [this] at sx1
    omega
  have hdy0 : 0 < dots_per_mm_y h := by
    rcases sy with ⟨sy1, _⟩
    by_contra hc
    have : dots_per_mm_y h = 0 := by omega
    rw [this] at sy1
    omega
  have sw := rust_div_ceil_spec h.cupsWidth (dots_per_mm_x h) hdx0
  have sh := rust_div_ceil_spec h.cupsHeight (dots_per_mm_y h) hdy0
  refine ⟨sx, sy, sw, sh, ?_, by decide⟩
  intro cfg
  unfold start_page
  cases hres : resolve_page_opts cfg with
  | error e => exact ⟨[], by simp⟩
  | ok o => exact ⟨post_opts_bytes h o, rfl⟩

/-- Witness for C5 at the fixture of the claim. -/
theorem c5_size_command_witness :
    (0 < (203 : Nat))
    ∧ outCmd (size_cmd ⟨203, 203, 812, 1218, 812⟩)
        = strBytes "SIZE 102 mm,153 mm" ++ [13, 10] :=
  ⟨by decide,
    (c5_size_command ⟨203, 203, 812, 1218, 812⟩ (by decide) (by decide)
      (by decide) (by decide)).2.2.2.2.2⟩

/-! ## Claim C9 -/

/-- C9: when resolving any page-setup option fails, `start_page` has
written exactly the SIZE command and nothing else, and propagates the
error: page setup output is not atomic on a configuration error. -/
theorem c9_size_only_on_parse_error (h : cups_page_header2_t)
    (cfg : String → Option String) (e : String)
    (he : resolve_page_opts cfg = Except.error e) :
    start_page h cfg = (outCmd (size_cmd h), Except.error e) := by
  unfold start_page
  rw [he]

/-- Witness for C9: a marked `Darkness` of `"15"` makes option resolution
fail (the code tries to parse the marker `"Default"` as an integer), and
the page-setup output is exactly the one SIZE line. -/
theorem c9_size_only_witness :
    start_page hdr_small cfg_bad
      = (outCmd (size_cmd hdr_small), Except.error "invalid digit found in string") :=
  c9_size_only_on_parse_error hdr_small cfg_bad _ (by decide)

/-! ## Bit-level lemmas about the thresholding loop -/

/-- Recursive restatement of the thresholding fold: the bits contributed
by the samples of `l` when the first of them has index `k`. -/
def lineBits : List Nat → Nat → Nat
  | [], _ => 0
  | b :: rest, k =>
    (if WHITE_THRESHOLD ≤ b then 1 <<< (7 - k) else 0) ||| lineBits rest (k + 1)

lemma foldl_threshold_enumFrom (l : List Nat) : ∀ (k acc : Nat),
    (l.enumFrom k).foldl threshold_step acc = acc ||| lineBits l k := by
  induction l with
  | nil => intro k acc; simp [lineBits]
  | cons b rest ih =>
    intro k acc
    rw [List.enumFrom_cons, List.foldl_cons, ih (k + 1)]
    show threshold_step acc (k, b) ||| lineBits rest (k + 1)
      = acc ||| lineBits (b :: rest) k
    simp only [threshold_step, lineBits]
    by_cases hb : WHITE_THRESHOLD ≤ b
    · rw [if_pos hb, if_pos hb, Nat.lor_assoc]
    · rw [if_neg hb, if_neg hb, Nat.zero_or]

lemma preByte_eq_lineBits (l : List Nat) : preByte l = lineBits l 0 := by
  unfold preByte
  rw [show l.enum = l.enumFrom 0 from rfl, foldl_threshold_enumFrom, Nat.zero_or]

lemma lineBits_testBit (l : List Nat) : ∀ (k j : Nat),
    Nat.testBit (lineBits l k) j = true
      ↔ ∃ i, i < l.length ∧ j = 7 - (k + i) ∧ WHITE_THRESHOLD ≤ l.getD i 0 := by
  induction l with
  | nil => intro k j; simp [lineBits]
  | cons b rest ih =>
    intro k j
    rw [show lineBits (b :: rest) k
        = (if WHITE_THRESHOLD ≤ b then 1 <<< (7 - k) else 0) ||| lineBits rest (k + 1)
      from rfl]
    rw [Nat.testBit_or, Bool.or_eq_true, ih (k + 1)]
    constructor
    · rintro (h | ⟨i, hi, hj, hbi⟩)
      · by_cases hb : WHITE_THRESHOLD ≤ b
        · rw [if_pos hb, Nat.shiftLeft_eq, Nat.one_mul, Nat.testBit_two_pow] at h
          have hjk := of_decide_eq_true h
          exact ⟨0, by simp, by omega, by simpa using hb⟩
        · rw [if_neg hb, Nat.zero_testBit] at h
          exact absurd h (by simp)
      · exact ⟨i + 1, by simpa using hi, by omega, by simpa using hbi⟩
    · rintro ⟨i, hi, hj, hbi⟩
      cases i with
      | zero =>
        left
        have hb : WHITE_THRESHOLD ≤ b := by simpa using hbi
        rw [if_pos hb, Nat.shiftLeft_eq, Nat.one_mul, Nat.testBit_two_pow]
        exact decide_eq_true (by omega)
      | succ i' =>
        right
        exact ⟨i', by simpa using hi, by omega, by simpa using hbi⟩

lemma preByte_testBit_true (c : List Nat) (j : Nat) :
    Nat.testBit (preByte c) j = true
      ↔ ∃ i, i < c.length ∧ j = 7 - i ∧ WHITE_THRESHOLD ≤ c.getD i 0 := by
  rw [preByte_eq_lineBits, lineBits_testBit]
  simp only [Nat.zero_add]

lemma preByte_testBit_eq (c : List Nat) (hc : c.length ≤ 8) (i : Nat)
    (hi : i < c.length) :
    Nat.testBit (preByte c) (7 - i) = decide (WHITE_THRESHOLD ≤ c.getD i 0) := by
  by_cases hb : WHITE_THRESHOLD ≤ c.getD i 0
  · rw [decide_eq_true hb, preByte_testBit_true]
    exact ⟨i, hi, rfl, hb⟩
  · rw [decide_eq_false hb]
    cases hx : Nat.testBit (preByte c) (7 - i) with
    | false => rfl
    | true =>
      obtain ⟨i', hi', hj, hb'⟩ := (preByte_testBit_true c (7 - i)).mp hx
      have hii : i' = i := by omega
      rw [hii] at hb'
      exact absurd hb' hb

lemma getD_mem_of_lt (c : List Nat) (i : Nat) (hi : i < c.length) :
    c.getD i 0 ∈ c := by
  rw [List.getD_eq_getElem?_getD, List.getElem?_eq_getElem hi, Option.getD_some]
  exact List.getElem_mem hi

lemma preByte_all_dark (c : List Nat) (h8 : c.length = 8)
    (hall : ∀ b ∈ c, WHITE_THRESHOLD ≤ b) : preByte c = 255 := by
  apply Nat.eq_of_testBit_eq
  intro j
  by_cases hj : j < 8
  · have h255 : Nat.testBit 255 j = true := by
      rw [show (255 : Nat) = 2 ^ 8 - 1 from rfl, Nat.testBit_two_pow_sub_one]
      exact decide_eq_true hj
    rw [h255, preByte_testBit_true]
    refine ⟨7 - j, by omega, by omega, ?_⟩
    exact hall _ (getD_mem_of_lt c (7 - j) (by omega))
  · have h255 : Nat.testBit 255 j = false := by
      rw [show (255 : Nat) = 2 ^ 8 - 1 from rfl, Nat.testBit_two_pow_sub_one]
      exact decide_eq_false hj
    rw [h255]
    cases hx : Nat.testBit (preByte c) j with
    | false => rfl
    | true =>
      obtain ⟨i, hi, hji, _⟩ := (preByte_testBit_true c j).mp hx
      omega

lemma preByte_all_light (c : List Nat) (hall : ∀ b ∈ c, b < WHITE_THRESHOLD) :
    preByte c = 0 := by
  apply Nat.eq_of_testBit_eq
  intro j
  rw [Nat.zero_testBit]
  cases hx : Nat.testBit (preByte c) j with
  | false => rfl
  | true =>
    obtain ⟨i, hi, _, hbi⟩ := (preByte_testBit_true c j).mp hx
    have hm := hall _ (getD_mem_of_lt c i hi)
    omega

lemma chunkByte_all_dark (c : List Nat) (h8 : c.length = 8)
    (hall : ∀ b ∈ c, WHITE_THRESHOLD ≤ b) : chunkByte c = 0 := by
  unfold chunkByte
  rw [preByte_all_dark c h8 hall, Nat.xor_self]

lemma chunkByte_all_light (c : List Nat) (hall : ∀ b ∈ c, b < WHITE_THRESHOLD) :
    chunkByte c = 255 := by
  unfold chunkByte
  rw [preByte_all_light c hall, Nat.xor_zero]

lemma chunkByte_trailing (c : List Nat) (j : Nat) (hj : j < 8 - c.length) :
    Nat.testBit (chunkByte c) j = true := by
  unfold chunkByte
  rw [Nat.testBit_xor]
  have h255 : Nat.testBit 255 j = true := by
    rw [show (255 : Nat) = 2 ^ 8 - 1 from rfl, Nat.testBit_two_pow_sub_one]
    exact decide_eq_true (by omega)
  have hpre : Nat.testBit (preByte c) j = false := by
    cases hx : Nat.testBit (preByte c) j with
    | false => rfl
    | true =>
      obtain ⟨i, hi, hji, _⟩ := (preByte_testBit_true c j).mp hx
      omega
  rw [h255, hpre]
  rfl

/-! ## Partitioning lemmas for `chunks8` -/

lemma chunks8_fuel_join : ∀ (fuel : Nat) (l : List Nat), l.length ≤ fuel →
    (chunks8_fuel fuel l).flatten = l := by
  intro fuel
  induction fuel with
  | zero =>
    intro l hl
    cases l with
    | nil => simp [chunks8_fuel]
    | cons a rest => simp at hl
  | succ n ih =>
    intro l hl
    cases l with
    | nil => simp [chunks8_fuel]
    | cons a rest =>
      rw [show chunks8_fuel (n + 1) (a :: rest)
          = (a :: rest.take 7) :: chunks8_fuel n (rest.drop 7) from rfl]
      rw [List.flatten_cons,
        ih (rest.drop 7) (by simp [List.length_drop] at hl ⊢; omega),
        List.cons_append, List.take_append_drop]

lemma chunks8_join (l : List Nat) : (chunks8 l).flatten = l :=
  chunks8_fuel_join l.length l (Nat.le_refl _)

lemma chunks8_fuel_length_le : ∀ (fuel : Nat) (l : List Nat), l.length ≤ fuel →
    ∀ c ∈ chunks8_fuel fuel l, c.length ≤ 8 := by
  intro fuel
  induction fuel with
  | zero =>
    intro l hl
    cases l with
    | nil => simp [chunks8_fuel]
    | cons a rest => simp at hl
  | succ n ih =>
    intro l hl
    cases l with
    | nil => simp [chunks8_fuel]
    | cons a rest =>
      rw [show chunks8_fuel (n + 1) (a :: rest)
          = (a :: rest.take 7) :: chunks8_fuel n (rest.drop 7) from rfl]
      intro c hc
      rcases List.mem_cons.mp hc with h | h
      · subst h
        simp only [List.length_cons, List.length_take]
        omega
      · exact ih (rest.drop 7) (by simp [List.length_drop] at hl ⊢; omega) c h

lemma chunks8_length_le (l : List Nat) : ∀ c ∈ chunks8 l, c.length ≤ 8 :=
  chunks8_fuel_length_le l.length l (Nat.le_refl _)

lemma chunks8_fuel_count : ∀ (fuel : Nat) (l : List Nat), l.length ≤ fuel →
    (chunks8_fuel fuel l).length = (l.length + 7) / 8 := by
  intro fuel
  induction fuel with
  | zero =>
    intro l hl
    cases l with
    | nil => simp [chunks8_fuel]
    | cons a rest => simp at hl
  | succ n ih =>
    intro l hl
    cases l with
    | nil => simp [chunks8_fuel]
    | cons a rest =>
      rw [show chunks8_fuel (n + 1) (a :: rest)
          = (a :: rest.take 7) :: chunks8_fuel n (rest.drop 7) from rfl]
      rw [List.length_cons, ih (rest.drop 7) (by simp [List.length_drop] at hl ⊢; omega)]
      simp only [List.length_drop, List.length_cons]
      omega

lemma chunks8_count (l : List Nat) : (chunks8 l).length = (l.length + 7) / 8 :=
  chunks8_fuel_count l.length l (Nat.le_refl _)

lemma chunks8_fuel_ne_nil (fuel : Nat) (a : Nat) (rest : List Nat) :
    chunks8_fuel fuel (a :: rest) ≠ [] := by
  cases fuel <;> simp [chunks8_fuel]

lemma chunks8_fuel_getLast : ∀ (fuel : Nat) (l : List Nat), l.length ≤ fuel →
    l ≠ [] →
    ∃ c, (chunks8_fuel fuel l).getLast? = some c ∧ c ∈ chunks8_fuel fuel l ∧
      c.length = (if l.length % 8 = 0 then 8 else l.length % 8) := by
  intro fuel
  induction fuel with
  | zero =>
    intro l hl hne
    cases l with
    | nil => exact absurd rfl hne
    | cons a rest => simp at hl
  | succ n ih =>
    intro l hl hne
    cases l with
    | nil => exact absurd rfl hne
    | cons a rest =>
      rw [show chunks8_fuel (n + 1) (a :: rest)
          = (a :: rest.take 7) :: chunks8_fuel n (rest.drop 7) from rfl]
      by_cases hr : rest.drop 7 = []
      · have h7 : rest.length ≤ 7 := by
          have := congrArg List.length hr
          simp [List.length_drop] at this
          omega
        rw [hr, show chunks8_fuel n ([] : List Nat) = [] by cases n <;> rfl]
        refine ⟨a :: rest.take 7, rfl, List.mem_singleton.mpr rfl, ?_⟩
        simp only [List.length_cons, List.length_take, List.length_cons]
        split <;> omega
      · have h7 : 7 < rest.length := by
          by_contra hc
          exact hr (List.drop_eq_nil_of_le (by omega))
        obtain ⟨c, hc1, hc2, hc3⟩ :=
          ih (rest.drop 7) (by simp [List.length_drop] at hl ⊢; omega) hr
        obtain ⟨d, ds, hds⟩ : ∃ d ds, chunks8_fuel n (rest.drop 7) = d :: ds := by
          cases hx : chunks8_fuel n (rest.drop 7) with
          | nil =>
            rcases hy : rest.drop 7 with _ | ⟨r, rs⟩
            · exact absurd hy hr
            · rw [hy] at hx
              exact absurd hx (chunks8_fuel_ne_nil n r rs)
          | cons d ds => exact ⟨d, ds, rfl⟩
        refine ⟨c, ?_, ?_, ?_⟩
        · rw [hds, List.getLast?_cons_cons]
          rw [hds] at hc1
          exact hc1
        · exact List.mem_cons_of_mem _ hc2
        · simp only [List.length_drop] at hc3
          simp only [List.length_cons]
          split at hc3 <;> split <;> omega

/-! ## Claim C2 -/

/-- C2: `output_line` partitions the row into consecutive groups of at
most 8 samples (flattening the groups recovers the row); before the
inversion, bit `7 - i` of a group's accumulator is set exactly when the
`i`-th sample is at or above the 128 threshold; the emitted byte is the
accumulator inverted as a `u8`; a full group of eight samples all at or
above 128 yields the byte `0x00`, and a group whose samples are all below
128 yields `0xFF`. -/
theorem c2_output_line (buffer : List Nat) :
    output_line buffer = (chunks8 buffer).map chunkByte
    ∧ (chunks8 buffer).flatten = buffer
    ∧ (∀ c ∈ chunks8 buffer, c.length ≤ 8)
    ∧ (∀ c ∈ chunks8 buffer, ∀ i, i < c.length →
        Nat.testBit (preByte c) (7 - i) = decide (WHITE_THRESHOLD ≤ c.getD i 0))
    ∧ (∀ c ∈ chunks8 buffer, chunkByte c = 255 ^^^ preByte c)
    ∧ (∀ c ∈ chunks8 buffer, c.length = 8 →
        (∀ b ∈ c, WHITE_THRESHOLD ≤ b) → chunkByte c = 0)
    ∧ (∀ c ∈ chunks8 buffer, (∀ b ∈ c, b < WHITE_THRESHOLD) → chunkByte c = 255) := by
  refine ⟨rfl, chunks8_join buffer, chunks8_length_le buffer, ?_, ?_, ?_, ?_⟩
  · intro c hc i hi
    exact preByte_testBit_eq c (chunks8_length_le buffer c hc) i hi
  · intro c _
    rfl
  · intro c _ h8 hall
    exact chunkByte_all_dark c h8 hall
  · intro c _ hall
    exact chunkByte_all_light c hall

/-- Witness for C2 on the row of eight dark samples followed by three
light ones. -/
theorem c2_output_line_witness :
    chunkByte [200, 200, 200, 200, 200, 200, 200, 200] = 0
    ∧ chunkByte [1, 2, 3] = 255
    ∧ output_line [200, 200, 200, 200, 200, 200, 200, 200, 1, 2, 3] = [0, 255] := by
  have h := c2_output_line [200, 200, 200, 200, 200, 200, 200, 200, 1, 2, 3]
  exact ⟨h.2.2.2.2.2.1 _ (by decide) (by decide) (by decide),
    h.2.2.2.2.2.2 _ (by decide) (by decide), by decide⟩

/-! ## Claim C7 -/

/-- C7: a row whose length is not a multiple of 8 still yields one byte
for its final short group (the byte count is the ceiling of the length
over 8), and in that final byte every bit position corresponding to a
sample past the end of the row is set ("print") after inversion. -/
theorem c7_partial_group (buffer : List Nat) (hlen : buffer.length % 8 ≠ 0) :
    (output_line buffer).length = buffer.length / 8 + 1
    ∧ ∃ last, (chunks8 buffer).getLast? = some last
        ∧ last.length = buffer.length % 8
        ∧ (output_line buffer).getLast? = some (chunkByte last)
        ∧ ∀ j, j < 8 - last.length → Nat.testBit (chunkByte last) j = true := by
  have hne : buffer ≠ [] := by
    intro h
    subst h
    simp at hlen
  obtain ⟨c, hc1, _hc2, hc3⟩ :=
    chunks8_fuel_getLast buffer.length buffer (Nat.le_refl _) hne
  constructor
  · rw [show output_line buffer = (chunks8 buffer).map chunkByte from rfl,
      List.length_map, chunks8_count]
    omega
  · refine ⟨c, hc1, ?_, ?_, ?_⟩
    · rw [hc3, if_neg hlen]
    · rw [show output_line buffer = (chunks8 buffer).map chunkByte from rfl,
        List.getLast?_map]
      rw [show (chunks8 buffer).getLast? = some c from hc1]
      rfl
    · intro j hj
      exact chunkByte_trailing c j hj

/-- Witness for C7 on a three-sample row. -/
theorem c7_partial_group_witness :
    ([1, 2, 3] : List Nat).length % 8 ≠ 0
    ∧ ((output_line [1, 2, 3]).length = ([1, 2, 3] : List Nat).length / 8 + 1
      ∧ ∃ last, (chunks8 [1, 2, 3]).getLast? = some last
          ∧ last.length = ([1, 2, 3] : List Nat).length % 8
          ∧ (output_line [1, 2, 3]).getLast? = some (chunkByte last)
          ∧ ∀ j, j < 8 - last.length → Nat.testBit (chunkByte last) j = true) :=
  ⟨by decide, c7_partial_group [1, 2, 3] (by decide)⟩

/-! ## Claim C6 -/

lemma getLast_of_append_some (l m : List Nat) (b : Nat) (hm : m.getLast? = some b) :
    (l ++ m).getLast? = some b := by
  rw [List.getLast?_append, hm]
  rfl

lemma post_opts_split (h : cups_page_header2_t) (o : PageOpts) :
    ∃ pre, post_opts_bytes h o = pre ++ strBytes (bitmap_cmd h) := by
  unfold post_opts_bytes
  exact ⟨_, rfl⟩

lemma bitmap_cmd_last (h : cups_page_header2_t) :
    (strBytes (bitmap_cmd h)).getLast? = some 44 := by
  unfold bitmap_cmd
  rw [strBytes_append]
  apply getLast_of_append_some
  decide

/-- C6: on successful setup, `start_page`'s output ends with the
bitmap-frame-open command, whose text carries the byte width
`(cupsWidth + 7) >> 3` — the ceiling of the pixel width over 8, as the two
bound conjuncts state — the pixel height, and the fixed flag `1`; the
output's final byte is the command's trailing comma (0x2C), not a
line-feed: no carriage-return line-feed terminator follows it, and the
page's row bytes are appended immediately after it. -/
theorem c6_bitmap_framing (h : cups_page_header2_t) (cfg : String → Option String)
    (hok : (start_page h cfg).2 = Except.ok ())
    (hw : h.cupsWidth + 7 < U32) :
    (∃ pre, (start_page h cfg).1 = pre ++ strBytes (bitmap_cmd h))
    ∧ bitmap_cmd h = "BITMAP 0,0," ++ toString ((h.cupsWidth + 7) >>> 3) ++ ","
        ++ toString h.cupsHeight ++ ",1,"
    ∧ h.cupsWidth ≤ 8 * ((h.cupsWidth + 7) >>> 3)
    ∧ 8 * ((h.cupsWidth + 7) >>> 3) < h.cupsWidth + 8
    ∧ (start_page h cfg).1.getLast? = some 44
    ∧ ∀ cancelAt c rows,
        (process_page cancelAt c h rows cfg).out
          = (start_page h cfg).1 ++ (row_loop cancelAt c h rows).out
            ++ end_page_bytes := by
  obtain ⟨o, hres⟩ : ∃ o, resolve_page_opts cfg = Except.ok o := by
    cases hr : resolve_page_opts cfg with
    | error e =>
      rw [show start_page h cfg = (outCmd (size_cmd h), Except.error e) from by
        unfold start_page
        rw [hr]] at hok
      exact absurd hok (by simp)
    | ok o => exact ⟨o, rfl⟩
  have hsp : start_page h cfg
      = (outCmd (size_cmd h) ++ post_opts_bytes h o, Except.ok ()) := by
    unfold start_page
    rw [hres]
  have h8 : (2 : Nat) ^ 3 = 8 := rfl
  refine ⟨?_, ?_, ?_, ?_, ?_, ?_⟩
  · obtain ⟨pre, hpre⟩ := post_opts_split h o
    refine ⟨outCmd (size_cmd h) ++ pre, ?_⟩
    rw [hsp]
    show outCmd (size_cmd h) ++ post_opts_bytes h o
      = outCmd (size_cmd h) ++ pre ++ strBytes (bitmap_cmd h)
    rw [hpre, List.append_assoc]
  · unfold bitmap_cmd
    rw [Nat.mod_eq_of_lt hw]
  · rw [Nat.shiftRight_eq_div_pow, h8]
    omega
  · rw [Nat.shiftRight_eq_div_pow, h8]
    omega
  · rw [hsp]
    show (outCmd (size_cmd h) ++ post_opts_bytes h o).getLast? = some 44
    obtain ⟨pre, hpre⟩ := post_opts_split h o
    rw [hpre]
    apply getLast_of_append_some
    apply getLast_of_append_some
    exact bitmap_cmd_last h
  · intro cancelAt c rows
    unfold process_page
    rw [hsp]

/-- Witness for C6 on the small fixture page. -/
theorem c6_bitmap_framing_witness :
    (start_page hdr_small cfg_none).1.getLast? = some 44
    ∧ bitmap_cmd hdr_small
      = "BITMAP 0,0," ++ toString ((hdr_small.cupsWidth + 7) >>> 3) ++ ","
        ++ toString hdr_small.cupsHeight ++ ",1," := by
  have h := c6_bitmap_framing hdr_small cfg_none (by decide) (by decide)
  exact ⟨h.2.2.2.2.1, h.2.1⟩

/-! ## Claims about the job driver loop -/

lemma start_page_ok_split (h : cups_page_header2_t) (cfg : String → Option String)
    (hok : (start_page h cfg).2 = Except.ok ()) :
    ∃ o, resolve_page_opts cfg = Except.ok o
      ∧ start_page h cfg
          = (outCmd (size_cmd h) ++ post_opts_bytes h o, Except.ok ()) := by
  cases hr : resolve_page_opts cfg with
  | error e =>
    rw [show start_page h cfg = (outCmd (size_cmd h), Except.error e) from by
      unfold start_page
      rw [hr]] at hok
    exact absurd hok (by simp)
  | ok o =>
    refine ⟨o, rfl, ?_⟩
    unfold start_page
    rw [hr]

lemma row_loop_go_cancelled_lt :
    ∀ (cancelAt rem : Nat) (rows : List (List Nat)) (c : Nat),
    (row_loop_go cancelAt rem rows c).cancelled = true →
    (row_loop_go cancelAt rem rows c).rowsDone < rem := by
  intro cancelAt rem
  induction rem with
  | zero =>
    intro rows c h
    simp [row_loop_go] at h
  | succ n ih =>
    intro rows c h
    by_cases hc : cancelAt ≤ c
    · simp [row_loop_go, hc]
    · cases rows with
      | nil => simp [row_loop_go, hc] at h
      | cons row rest =>
        have h' : (row_loop_go cancelAt n rest (c + 1)).cancelled = true := by
          simpa [row_loop_go, hc] using h
        have := ih rest (c + 1) h'
        simp [row_loop_go, hc]
        omega

/-! ## Claim C3 -/

/-- C3 counterexample: with the cancellation flag already set at the first
per-row check of a two-row page (so the row loop is abandoned with zero of
two rows emitted), the finalize command is nevertheless present at the end
of the page's output — `end_page` runs unconditionally after the row loop,
so the claim that no PRINT is emitted for the incomplete page is false. -/
theorem c3_cancel_cex :
    (row_loop 0 0 hdr_small rows_small).cancelled = true
    ∧ (row_loop 0 0 hdr_small rows_small).rowsDone = 0
    ∧ hdr_small.cupsHeight = 2
    ∧ List.isSuffixOf end_page_bytes
        (process_page 0 0 hdr_small rows_small cfg_none).out = true := by
  refine ⟨by decide, by decide, by decide, by decide⟩

/-- C3 (amended): when the cancellation flag is observed set at a per-row
check, the row loop is indeed abandoned with rows of the page remaining —
but the page-finalize (PRINT) command is still emitted for the incomplete
page, as `end_page` runs unconditionally after the row loop. -/
theorem c3_cancel_still_finalizes (cancelAt c : Nat) (h : cups_page_header2_t)
    (rows : List (List Nat)) (cfg : String → Option String)
    (hok : (start_page h cfg).2 = Except.ok ())
    (hcan : (row_loop cancelAt c h rows).cancelled = true) :
    (process_page cancelAt c h rows cfg).rowCancelled = true
    ∧ (row_loop cancelAt c h rows).rowsDone < h.cupsHeight
    ∧ end_page_bytes <:+ (process_page cancelAt c h rows cfg).out := by
  obtain ⟨o, _hres, hsp⟩ := start_page_ok_split h cfg hok
  have hout : (process_page cancelAt c h rows cfg).out
      = (outCmd (size_cmd h) ++ post_opts_bytes h o)
        ++ (row_loop cancelAt c h rows).out ++ end_page_bytes := by
    unfold process_page
    rw [hsp]
  refine ⟨?_, row_loop_go_cancelled_lt cancelAt h.cupsHeight rows c hcan, ?_⟩
  · unfold process_page
    rw [hsp]
    exact hcan
  · rw [hout]
    exact ⟨(outCmd (size_cmd h) ++ post_opts_bytes h o)
      ++ (row_loop cancelAt c h rows).out, rfl⟩

/-- Witness for the amended C3 on the fixture page, cancelled at the first
per-row check. -/
theorem c3_cancel_still_finalizes_witness :
    (process_page 0 0 hdr_small rows_small cfg_none).rowCancelled = true
    ∧ (row_loop 0 0 hdr_small rows_small).rowsDone < hdr_small.cupsHeight
    ∧ end_page_bytes <:+ (process_page 0 0 hdr_small rows_small cfg_none).out :=
  c3_cancel_still_finalizes 0 0 hdr_small rows_small cfg_none (by decide) (by decide)

/-! ## Claim C4 -/

lemma job_loop_ignores_ending (cancelAt : Nat) (cfg : String → Option String) :
    ∀ (pages : List PageData) (e1 e2 : StreamEnd) (c page : Nat),
    job_loop cancelAt cfg pages e1 c page = job_loop cancelAt cfg pages e2 c page := by
  intro pages
  induction pages with
  | nil =>
    intro e1 e2 c page
    rfl
  | cons p rest ih =>
    intro e1 e2 c page
    by_cases hcc : cancelAt ≤ c
    · simp only [job_loop, if_pos hcc]
    · simp only [job_loop, if_neg hcc]
      cases hst : (process_page cancelAt (c + 1) p.header p.rows cfg).status with
      | error e => simp [hst]
      | ok u =>
        cases u
        by_cases hc2 : cancelAt ≤ (process_page cancelAt (c + 1) p.header p.rows cfg).ctr
        · simp [hst, if_pos hc2]
        · have hrec := ih e1 e2
            ((process_page cancelAt (c + 1) p.header p.rows cfg).ctr + 1) (page + 1)
          simp [hst, if_neg hc2, hrec]

/-- C4 counterexample: a mid-stream header-read failure after one
successfully processed page is not fatal — the loop treats the failed
read exactly like end-of-stream, the job status is Ok and the exit code
is 0, where the claim requires a propagated error and a non-zero exit. -/
theorem c4_midstream_failure_cex :
    (error_main_run 1000 [⟨hdr_small, rows_small⟩] StreamEnd.readError cfg_none).status
      = Except.ok ()
    ∧ (error_main_run 1000 [⟨hdr_small, rows_small⟩] StreamEnd.readError cfg_none).pages
      = 1
    ∧ main_exit (error_main_run 1000 [⟨hdr_small, rows_small⟩]
        StreamEnd.readError cfg_none).status = 0 := by
  refine ⟨by decide, by decide, by decide⟩

/-- C4 (amended): the header read reports failure identically for
end-of-stream and for any other read failure (`r == 0`), and the job
treats both as normal loop termination: its entire outcome — output
bytes, page count and status — is independent of which of the two the
stream ran into. -/
theorem c4_header_failure_is_eof (cancelAt : Nat) (pages : List PageData)
    (cfg : String → Option String) :
    error_main_run cancelAt pages StreamEnd.readError cfg
      = error_main_run cancelAt pages StreamEnd.eof cfg := by
  unfold error_main_run
  rw [job_loop_ignores_ending cancelAt cfg pages StreamEnd.readError StreamEnd.eof 0 0]

/-! ## Claim C8 -/

/-- C8: the job's page counter is the loop's; when the loop finishes
cleanly having counted zero pages the job fails with
`no pages were found.` and exit status 1, and when it finishes cleanly
with at least one page the job succeeds with exit status 0. -/
theorem c8_exit_status (cancelAt : Nat) (pages : List PageData) (ending : StreamEnd)
    (cfg : String → Option String) :
    (error_main_run cancelAt pages ending cfg).pages
        = (job_loop cancelAt cfg pages ending 0 0).pages
    ∧ ((job_loop cancelAt cfg pages ending 0 0).pages = 0 →
        (job_loop cancelAt cfg pages ending 0 0).status = Except.ok () →
        (error_main_run cancelAt pages ending cfg).status
            = Except.error "no pages were found."
          ∧ main_exit (error_main_run cancelAt pages ending cfg).status = 1)
    ∧ ((job_loop cancelAt cfg pages ending 0 0).pages ≠ 0 →
        (job_loop cancelAt cfg pages ending 0 0).status = Except.ok () →
        (error_main_run cancelAt pages ending cfg).status = Except.ok ()
          ∧ main_exit (error_main_run cancelAt pages ending cfg).status = 0) := by
  cases hst : (job_loop cancelAt cfg pages ending 0 0).status with
  | error e =>
    refine ⟨?_, ?_, ?_⟩
    · simp [error_main_run, hst]
    · intro _ hok
      exact absurd hok (by simp)
    · intro _ hok
      exact absurd hok (by simp)
  | ok u =>
    cases u
    by_cases hp : (job_loop cancelAt cfg pages ending 0 0).pages = 0
    · refine ⟨?_, ?_, ?_⟩
      · simp [error_main_run, hst, hp]
      · intro _ _
        exact ⟨by simp [error_main_run, hst, hp],
          by simp [error_main_run, hst, hp, main_exit]⟩
      · intro hne _
        exact absurd hp hne
    · refine ⟨?_, ?_, ?_⟩
      · simp [error_main_run, hst, hp]
      · intro h0 _
        exact absurd h0 hp
      · intro _ _
        exact ⟨by simp [error_main_run, hst, hp],
          by simp [error_main_run, hst, hp, main_exit]⟩

/-- Witness for C8: the empty job fails with exit 1; a one-page job
exits 0. -/
theorem c8_exit_status_witness :
    ((error_main_run 7 [] StreamEnd.eof cfg_none).status
        = Except.error "no pages were found."
      ∧ main_exit (error_main_run 7 [] StreamEnd.eof cfg_none).status = 1)
    ∧ ((error_main_run 1000 [⟨hdr_small, rows_small⟩] StreamEnd.eof cfg_none).status
        = Except.ok ()
      ∧ main_exit (error_main_run 1000 [⟨hdr_small, rows_small⟩]
          StreamEnd.eof cfg_none).status = 0) :=
  ⟨(c8_exit_status 7 [] StreamEnd.eof cfg_none).2.1 (by decide) (by decide),
    (c8_exit_status 1000 [⟨hdr_small, rows_small⟩] StreamEnd.eof cfg_none).2.2
      (by decide) (by decide)⟩
